import Mathlib

/-!
Verification development for the ZTF follow-up pipeline scanning engine.

The Lean definitions below are a shallow embedding of the Python source:

* `find_pixel_threshold`, `threshold_mask` — `gw_scanner.py`,
  `GravWaveScanner.find_pixel_threshold` and the mask built in
  `GravWaveScanner.unpack_skymap`;
* `filter_f_no_prv`, `filter_f_history` — `gw_scanner.py`,
  `GravWaveScanner.filter_f_no_prv` / `filter_f_history`;
* `add_res_to_cache` — `nuztf/base_scanner.py`, `BaseScanner.add_res_to_cache`
  (identical in-line code in `ampel_magic.py`, `AmpelWizard.scan_cones`);
* `scan_cones` — the cone-iteration loop of `BaseScanner.scan_cones` /
  `AmpelWizard.scan_cones`;
* `merge_alerts` — `ampel_magic.py`, `AmpelWizard.merge_alerts`;
* `latest_detection`, `parse_candidates` — the per-record "latest" computation
  of `AmpelWizard.parse_candidates` / `BaseScanner.parse_candidates`;
* `rad2deg`, `extract_ra_dec_nuztf`, `extract_ra_dec_legacy`,
  `issued_center_nuztf`, `issued_center_legacy` — the coordinate conversions of
  `BaseScanner.extract_ra_dec` / `AmpelWizard.extract_ra_dec` and the
  `np.degrees` calls in the respective `scan_cones` loops.

Python floats are modelled as exact rationals (`ℚ`); the real-valued unit
conversions of the coordinate pipeline are modelled over `ℝ` with the exact
`Real.pi`.  Python `list(set(...))` iteration is determinised as
deduplication; this only fixes an order that CPython leaves unspecified.
Python `list.index` and `max`/`min` of nonempty lists are modelled by
`pyIndexOf`, `pyMax`, `pyMin`.  In-place dict mutation of the `latest` record
in `merge_alerts` is modelled by threading the accumulator through the folds,
including the aliasing `alerts[index] is latest` (the `idx = latestIdx` test
in `merge_absorb`).
-/

namespace ZTF

/-- One ZTF detection (the dict stored under `candidate` or as an entry of
`prv_candidates` in an alert packet).  Fields are the ones the scanning engine
reads; `isdiffpos` is `none` when the Python value is `None`. -/
structure Detection where
  jd : ℚ
  jdstarthist : ℚ
  jdendhist : ℚ
  isdiffpos : Option String
  ra : ℚ
  dec : ℚ
  fid : ℕ
  magpsf : ℚ
  sigmapsf : ℚ
deriving DecidableEq, Repr, Inhabited

/-- One alert packet: object id, current detection, previous detections. -/
structure AlertRecord where
  objectId : String
  candidate : Detection
  prv_candidates : List Detection
deriving DecidableEq, Repr, Inhabited

/-! ### Python list helpers -/

/-- Python `np.sort(data)[::-1]` and `sorted(jds)[::-1]`: sort ascending, reverse. -/
def sortDescending (l : List ℚ) : List ℚ :=
  (List.insertionSort (· ≤ ·) l).reverse

/-- Python `max(l)` for a nonempty list `l`. -/
def pyMax (l : List ℚ) : ℚ := l.foldl max l.headI

/-- Python `min(l)` for a nonempty list `l`. -/
def pyMin (l : List ℚ) : ℚ := l.foldl min l.headI

/-- Python `l.index(v)`: index of the first occurrence of `v` in `l`. -/
def pyIndexOf (v : ℚ) : List ℚ → ℕ
  | [] => 0
  | x :: rest => if x = v then 0 else pyIndexOf v rest + 1

/-! ### Sky-map credible region (`find_pixel_threshold` / `unpack_skymap`) -/

/-- The accumulation loop of `GravWaveScanner.find_pixel_threshold`:
`int_sum` starts at `0.0`, each ranked pixel is added, and the loop breaks
returning that pixel value once `int_sum > prob_threshold`; if the loop runs
out, the initial `pixel_threshold = 0.0` is returned. -/
def fptLoop (t : ℚ) : ℚ → List ℚ → ℚ
  | _, [] => 0
  | acc, p :: rest => if t < acc + p then p else fptLoop t (acc + p) rest

/-- Embedding of `GravWaveScanner.find_pixel_threshold(data)` with `prob_threshold = t`. -/
def find_pixel_threshold (t : ℚ) (data : List ℚ) : ℚ :=
  fptLoop t 0 (sortDescending data)

/-- The pixel mask built in `GravWaveScanner.unpack_skymap`:
`mask = self.data[self.key] > threshold` (strict comparison). -/
def threshold_mask (t : ℚ) (data : List ℚ) : List Bool :=
  data.map (fun p => decide (find_pixel_threshold t data < p))

/-- The probabilities of the pixels selected by `threshold_mask`
(`self.data[self.key][mask]` in `unpack_skymap`). -/
def credible_region_pixels (t : ℚ) (data : List ℚ) : List ℚ :=
  data.filter (fun p => decide (find_pixel_threshold t data < p))

/-! ### Filter pipeline (`filter_f_no_prv` / `filter_f_history`) -/

/-- Membership test `isdiffpos in ["t", "1"]`. -/
def is_positive_diff (o : Option String) : Bool :=
  decide (o = some "t") || decide (o = some "1")

/-- Embedding of `GravWaveScanner.filter_f_no_prv`.  The sky-containment test
`self.in_contour` (healpix bilinear interpolation of the sky map compared
against the pixel threshold) is passed in as the boolean function
`in_contour`. -/
def filter_f_no_prv (t_min : ℚ) (in_contour : ℚ → ℚ → Bool)
    (res : AlertRecord) : Bool :=
  if !(is_positive_diff res.candidate.isdiffpos) then false
  else if res.candidate.jdstarthist < t_min then false
  else if !(in_contour res.candidate.ra res.candidate.dec) then false
  else true

/-- Embedding of `GravWaveScanner.filter_f_history` with event window `[t_min, t_max]`
(`t_max` is `self.default_t_max`). -/
def filter_f_history (t_min t_max : ℚ) (res : AlertRecord) : Bool :=
  if res.candidate.jdstarthist < t_min then false
  else if res.candidate.jdendhist - res.candidate.jdstarthist < 1/100 then false
  else
    let old_detections := res.prv_candidates.filter
      (fun x => decide (x.isdiffpos ≠ none) && decide (t_min < x.jd)
        && decide (x.jd < t_max))
    let pos_detections := old_detections.filter
      (fun x => is_positive_diff x.isdiffpos)
    if pos_detections.length < 1 then false else true

/-! ### Candidate cache (`add_res_to_cache`) -/

/-- The candidate cache `self.cache`: a keyed store, modelled as a partial map
from object id to alert record. -/
def Cache := String → Option AlertRecord

/-- Dict assignment `self.cache[key] = value` for the map model. -/
def cacheInsert (c : Cache) (k : String) (v : AlertRecord) : Cache :=
  fun q => if q = k then some v else c q

/-- Cache with no entries. -/
def emptyCache : Cache := fun _ => none

/-- Embedding of `BaseScanner.add_res_to_cache`: insert when the object id is absent,
otherwise replace only when the incoming current-detection `jd` is strictly
greater than the cached one.  The same code appears in-line at the end of
`AmpelWizard.scan_cones`. -/
def add_res_to_cache (c : Cache) (res : List AlertRecord) : Cache :=
  res.foldl
    (fun cache a =>
      match cache a.objectId with
      | none => cacheInsert cache a.objectId a
      | some cached =>
        if cached.candidate.jd < a.candidate.jd then
          cacheInsert cache a.objectId a
        else cache)
    c

/-! ### Cone scanning loop (`scan_cones`) -/

/-- The mutable scan state of a scanner instance: `self.scanned_pixels`, plus
a log of the cone ids for which a remote cone search was actually issued
(instrumentation for the resumability property; the Python code issues
`ampel_cone_search` exactly when it appends to `scanned_pixels`). -/
structure ScanState where
  scanned_pixels : List ℕ
  searched : List ℕ
deriving DecidableEq, Repr, Inhabited

/-- Fresh scanner state (`self.scanned_pixels = []`). -/
def initialScanState : ScanState := ⟨[], []⟩

/-- The per-cone body of the `scan_cones` loop: skip the cone when it is in
`scanned_pixels`, otherwise issue the cone search and append the cone id to
`scanned_pixels`. -/
def scan_cones_loop (st : ScanState) (cones : List ℕ) : ScanState :=
  cones.foldl
    (fun s cone_id =>
      if cone_id ∈ s.scanned_pixels then s
      else
        { scanned_pixels := s.scanned_pixels ++ [cone_id],
          searched := s.searched ++ [cone_id] })
    st

/-- The cone-iteration part of `scan_cones(t_max, max_cones)`: iterate over
`list(self.cone_ids)[:max_cones]` (with `max_cones = len(cone_ids)` when it is
`None`). -/
def scan_cones (cone_ids : List ℕ) (max_cones : Option ℕ) (st : ScanState) :
    ScanState :=
  scan_cones_loop st (cone_ids.take (max_cones.getD cone_ids.length))

/-! ### Alert merging (`merge_alerts`) -/

/-- Assignment `latest["candidate"]["jdstarthist"] = s` on a copy of `a`. -/
def candidateWithStart (a : AlertRecord) (s : ℚ) : AlertRecord :=
  { a with candidate := { a.candidate with jdstarthist := s } }

/-- The inner loop of `merge_alerts`: for each `prv` in the snapshot
`x["prv_candidates"] + [x["candidate"]]`, prepend it to
`latest["prv_candidates"]` unless an equal record is already present. -/
def merge_prv_insert (latest : AlertRecord) (snapshot : List Detection) :
    AlertRecord :=
  snapshot.foldl
    (fun lat prv =>
      if prv ∈ lat.prv_candidates then lat
      else { lat with prv_candidates := prv :: lat.prv_candidates })
    latest

/-- One iteration of the `for index in order[1:]` loop of `merge_alerts`:
`x = alerts[index]`, then the inner insertion loop.  When `idx = latestIdx`,
`alerts[idx]` is the very dict object being mutated in Python, so `x` is the
current accumulator. -/
def merge_absorb (alerts : List AlertRecord) (latestIdx : ℕ)
    (latest : AlertRecord) (idx : ℕ) : AlertRecord :=
  let x := if idx = latestIdx then latest else alerts.getD idx default
  merge_prv_insert latest (x.prv_candidates ++ [x.candidate])

/-- The multi-record branch of `merge_alerts` for one object id:
`jds = [x["candidate"]["jd"] for x in alerts]`,
`order = [jds.index(x) for x in sorted(jds)[::-1]]`,
`latest = alerts[jds.index(max(jds))]`,
`latest["candidate"]["jdstarthist"] = min(...)`, then the absorb loop over
`order[1:]`. -/
def merge_group (alerts : List AlertRecord) : AlertRecord :=
  let jds := alerts.map fun a => a.candidate.jd
  let order := (sortDescending jds).map fun v => pyIndexOf v jds
  let latestIdx := pyIndexOf (pyMax jds) jds
  let minStart := pyMin (alerts.map fun a => a.candidate.jdstarthist)
  let latest0 := candidateWithStart (alerts.getD latestIdx default) minStart
  (order.drop 1).foldl (merge_absorb alerts latestIdx) latest0

/-- Grouping `alerts = [x for x in alert_list if x["objectId"] == objectid]`. -/
def groupFor (l : List AlertRecord) (k : String) : List AlertRecord :=
  l.filter fun a => decide (a.objectId = k)

/-- The per-key body of `merge_alerts`: a single record passes through
unchanged, several records are merged by `merge_group`. -/
def mergeFor (l : List AlertRecord) (k : String) : AlertRecord :=
  if (groupFor l k).length = 1 then (groupFor l k).headI
  else merge_group (groupFor l k)

/-- Embedding of `AmpelWizard.merge_alerts`: group by object id
(`keys = list(set([x["objectId"] for x in alert_list]))`, determinised by
`List.dedup`) and merge each group. -/
def merge_alerts (alert_list : List AlertRecord) : List AlertRecord :=
  ((alert_list.map fun a => a.objectId).dedup).map (mergeFor alert_list)

/-! ### Candidate summary table (`parse_candidates`) -/

/-- The per-record "latest detection" computation at the top of
`parse_candidates`: `jds = [x["jd"] for x in res["prv_candidates"]]`, then
compare `res["candidate"]["jd"]` with `max(jds)`.  Python `max` of an empty
sequence raises `ValueError`; this is modelled as `none`. -/
def latest_detection (res : AlertRecord) : Option Detection :=
  let jds := res.prv_candidates.map fun x => x.jd
  if jds = [] then none
  else if pyMax jds < res.candidate.jd then some res.candidate
  else some (res.prv_candidates.getD (pyIndexOf (pyMax jds) jds) default)

/-- Row-by-row table construction: each cached record contributes the row
`(name, latest detection)`; the whole table fails if any record fails. -/
def parse_rows : List (String × AlertRecord) → Option (List (String × Detection))
  | [] => some []
  | p :: rest =>
    match latest_detection p.2 with
    | none => none
    | some d =>
      match parse_rows rest with
      | none => none
      | some rows => some ((p.1, d) :: rows)

/-- Embedding of `parse_candidates`: iterate over `sorted(self.cache.items())` and render
one row per cached candidate. -/
def parse_candidates (cache : List (String × AlertRecord)) :
    Option (List (String × Detection)) :=
  parse_rows (List.insertionSort (fun a b => a.1 ≤ b.1) cache)

/-! ### Coordinate conversion (`extract_ra_dec` and the cone-search call) -/

/-- Conversion `np.degrees` alias `np.rad2deg`. -/
noncomputable def rad2deg (x : ℝ) : ℝ := x * (180 / Real.pi)

/-- Embedding of `BaseScanner.extract_ra_dec` (`nuztf/base_scanner.py`): from the healpix
spherical coordinates `(theta, phi)` of the pixel, return
`(np.rad2deg(phi), np.rad2deg(0.5 * np.pi - theta))` — already in degrees. -/
noncomputable def extract_ra_dec_nuztf (theta phi : ℝ) : ℝ × ℝ :=
  (rad2deg phi, rad2deg (Real.pi / 2 - theta))

/-- Embedding of `AmpelWizard.extract_ra_dec` (`ampel_magic.py`): from `(theta, phi)`
return `(phi, pi / 2 - theta)` — still in radians. -/
noncomputable def extract_ra_dec_legacy (theta phi : ℝ) : ℝ × ℝ :=
  (phi, Real.pi / 2 - theta)

/-- The center actually passed to the cone search by
`BaseScanner.scan_cones`: `np.degrees` applied to the stored cone
coordinates, which `extract_ra_dec` produced in degrees. -/
noncomputable def issued_center_nuztf (theta phi : ℝ) : ℝ × ℝ :=
  (rad2deg (extract_ra_dec_nuztf theta phi).1,
   rad2deg (extract_ra_dec_nuztf theta phi).2)

/-- The center actually passed to the cone search by
`AmpelWizard.scan_cones`: `np.degrees` applied to the stored cone
coordinates, which the legacy `extract_ra_dec` produced in radians. -/
noncomputable def issued_center_legacy (theta phi : ℝ) : ℝ × ℝ :=
  (rad2deg (extract_ra_dec_legacy theta phi).1,
   rad2deg (extract_ra_dec_legacy theta phi).2)

/-! ### Concrete records used by witnesses and counterexamples -/

/-- Probabilities of the four-pixel example sky map of the spec. -/
def examplePixels : List ℚ := [1/2, 3/10, 3/20, 1/20]

/-- Current detection of the earlier (jd = 2459000.1) example record. -/
def exEarlyDet : Detection :=
  { jd := 24590001/10, jdstarthist := 2459000, jdendhist := 24590001/10,
    isdiffpos := some "t", ra := 10, dec := 5, fid := 1, magpsf := 19,
    sigmapsf := 1/10 }

/-- Current detection of the later (jd = 2459000.5) example record. -/
def exLateDet : Detection :=
  { jd := 24590005/10, jdstarthist := 24590004/10, jdendhist := 24590005/10,
    isdiffpos := some "t", ra := 10, dec := 5, fid := 2, magpsf := 18,
    sigmapsf := 1/10 }

/-- Example record for `ZTF21abc` whose current detection is at jd 2459000.1. -/
def exEarly : AlertRecord :=
  { objectId := "ZTF21abc", candidate := exEarlyDet, prv_candidates := [] }

/-- Example record for `ZTF21abc` whose current detection is at jd 2459000.5. -/
def exLate : AlertRecord :=
  { objectId := "ZTF21abc", candidate := exLateDet, prv_candidates := [] }

/-- A current detection with jd 5 at ra 1. -/
def tieDetA : Detection :=
  { jd := 5, jdstarthist := 5, jdendhist := 5, isdiffpos := some "t",
    ra := 1, dec := 0, fid := 1, magpsf := 19, sigmapsf := 1 }

/-- A different current detection with the same jd 5, at ra 2. -/
def tieDetB : Detection :=
  { jd := 5, jdstarthist := 5, jdendhist := 5, isdiffpos := some "t",
    ra := 2, dec := 0, fid := 1, magpsf := 19, sigmapsf := 1 }

/-- Record holding `tieDetA`. -/
def tieA : AlertRecord :=
  { objectId := "ZTF21tie", candidate := tieDetA, prv_candidates := [] }

/-- Record holding `tieDetB`: same object id and same current-detection jd. -/
def tieB : AlertRecord :=
  { objectId := "ZTF21tie", candidate := tieDetB, prv_candidates := [] }

/-- Current detection of the self-merge example. -/
def selfDet : Detection :=
  { jd := 7, jdstarthist := 6, jdendhist := 7, isdiffpos := some "t",
    ra := 3, dec := 0, fid := 1, magpsf := 18, sigmapsf := 1 }

/-- Previous detection of the self-merge example. -/
def selfPrv : Detection :=
  { jd := 6, jdstarthist := 6, jdendhist := 6, isdiffpos := some "t",
    ra := 3, dec := 0, fid := 1, magpsf := 19, sigmapsf := 1 }

/-- An already-merged record with one previous detection. -/
def selfA : AlertRecord :=
  { objectId := "ZTF21self", candidate := selfDet, prv_candidates := [selfPrv] }

/-- A record whose current detection is a negative subtraction
(`isdiffpos = "f"`) but which has a positive previous detection inside the
event window and a history span above 0.01 days. -/
def negCurrentRec : AlertRecord :=
  { objectId := "ZTF21neg",
    candidate :=
      { jd := 2, jdstarthist := 1, jdendhist := 2, isdiffpos := some "f",
        ra := 0, dec := 0, fid := 1, magpsf := 19, sigmapsf := 1 },
    prv_candidates :=
      [{ jd := 1, jdstarthist := 1, jdendhist := 1, isdiffpos := some "t",
         ra := 0, dec := 0, fid := 1, magpsf := 19, sigmapsf := 1 }] }

/-- A record with an empty `prv_candidates` list. -/
def noPrvRec : AlertRecord :=
  { objectId := "ZTF21new", candidate := tieDetA, prv_candidates := [] }

/-- A record with one previous detection (renders into a table row). -/
def withPrvRec : AlertRecord :=
  { objectId := "ZTF21old", candidate := selfDet, prv_candidates := [selfPrv] }

/-- Cache record whose current detection is at jd 5. -/
def cacheRecT1 : AlertRecord :=
  { objectId := "ZTF21abc", candidate := tieDetA, prv_candidates := [] }

/-- Cache record for the same object id with a later detection at jd 7. -/
def cacheRecT2 : AlertRecord :=
  { objectId := "ZTF21abc", candidate := selfDet, prv_candidates := [] }

/-! ## Auxiliary lemmas -/

theorem sortDescending_perm (l : List ℚ) : List.Perm (sortDescending l) l :=
  (List.reverse_perm _).trans (List.perm_insertionSort _ l)

theorem sortDescending_ne_nil (l : List ℚ) (h : l ≠ []) :
    sortDescending l ≠ [] := by
  intro hc
  apply h
  have hlen := (sortDescending_perm l).length_eq
  rw [hc] at hlen
  exact List.length_eq_zero.mp hlen.symm

theorem fptLoop_eq_zero (t : ℚ) : ∀ (l : List ℚ) (acc : ℚ),
    (∀ p ∈ l, 0 ≤ p) → acc + l.sum ≤ t → fptLoop t acc l = 0 := by
  intro l
  induction l with
  | nil => intro acc _ _; rfl
  | cons p rest ih =>
    intro acc hpos hsum
    have hrest : 0 ≤ rest.sum :=
      List.sum_nonneg (fun q hq => hpos q (by simp [hq]))
    have hle : ¬ t < acc + p := by
      rw [List.sum_cons] at hsum
      push_neg
      linarith
    rw [fptLoop, if_neg hle]
    apply ih (acc + p) (fun q hq => hpos q (by simp [hq]))
    rw [List.sum_cons] at hsum
    linarith

theorem scan_cones_loop_skip (cones : List ℕ) : ∀ (st : ScanState),
    (∀ c ∈ cones, c ∈ st.scanned_pixels) → scan_cones_loop st cones = st := by
  induction cones with
  | nil => intro st _; rfl
  | cons c rest ih =>
    intro st h
    have hc : c ∈ st.scanned_pixels := h c (by simp)
    rw [scan_cones_loop, List.foldl_cons]
    simp only [if_pos hc]
    exact ih st (fun d hd => h d (by simp [hd]))

theorem scan_cones_loop_fresh (cones : List ℕ) : ∀ (st : ScanState),
    cones.Nodup → (∀ c ∈ cones, c ∉ st.scanned_pixels) →
    scan_cones_loop st cones =
      ⟨st.scanned_pixels ++ cones, st.searched ++ cones⟩ := by
  induction cones with
  | nil => intro st _ _; simp [scan_cones_loop]
  | cons c rest ih =>
    intro st hnd h
    have hc : c ∉ st.scanned_pixels := h c (by simp)
    rw [scan_cones_loop, List.foldl_cons]
    simp only [if_neg hc]
    have hrest : ∀ d ∈ rest, d ∉ st.scanned_pixels ++ [c] := by
      intro d hd
      simp only [List.mem_append, List.mem_singleton]
      rintro (hds | rfl)
      · exact h d (by simp [hd]) hds
      · exact (List.nodup_cons.mp hnd).1 hd
    have hstep := ih ⟨st.scanned_pixels ++ [c], st.searched ++ [c]⟩
      (List.nodup_cons.mp hnd).2 hrest
    rw [show (List.foldl _ _ rest : ScanState) =
      scan_cones_loop ⟨st.scanned_pixels ++ [c], st.searched ++ [c]⟩ rest
      from rfl, hstep]
    simp

theorem add_res_one_absent (c : Cache) (a : AlertRecord)
    (h : c a.objectId = none) :
    add_res_to_cache c [a] = cacheInsert c a.objectId a := by
  show (match c a.objectId with
    | none => cacheInsert c a.objectId a
    | some cached =>
      if cached.candidate.jd < a.candidate.jd then cacheInsert c a.objectId a
      else c) = _
  rw [h]

theorem add_res_one_present (c : Cache) (a cached : AlertRecord)
    (h : c a.objectId = some cached) :
    add_res_to_cache c [a] =
      if cached.candidate.jd < a.candidate.jd then cacheInsert c a.objectId a
      else c := by
  show (match c a.objectId with
    | none => cacheInsert c a.objectId a
    | some cached =>
      if cached.candidate.jd < a.candidate.jd then cacheInsert c a.objectId a
      else c) = _
  rw [h]

theorem init_le_foldl_max : ∀ (l : List ℚ) (init : ℚ),
    init ≤ l.foldl max init := by
  intro l
  induction l with
  | nil => intro init; exact le_refl _
  | cons a t ih =>
    intro init
    calc init ≤ max init a := le_max_left _ _
      _ ≤ t.foldl max (max init a) := ih _

theorem le_foldl_max : ∀ (l : List ℚ) (init x : ℚ), x ∈ l →
    x ≤ l.foldl max init := by
  intro l
  induction l with
  | nil => intro init x hx; simp at hx
  | cons a t ih =>
    intro init x hx
    rcases List.mem_cons.mp hx with rfl | hxt
    · calc x ≤ max init x := le_max_right _ _
        _ ≤ t.foldl max (max init x) := init_le_foldl_max _ _
    · exact ih _ x hxt

theorem foldl_max_mem : ∀ (l : List ℚ) (init : ℚ),
    l.foldl max init = init ∨ l.foldl max init ∈ l := by
  intro l
  induction l with
  | nil => intro init; exact Or.inl rfl
  | cons a t ih =>
    intro init
    rcases ih (max init a) with h | h
    · rcases max_choice init a with hm | hm
      · left; rw [List.foldl_cons, h, hm]
      · right; rw [List.foldl_cons, h, hm]; exact List.mem_cons_self _ _
    · right; exact List.mem_cons_of_mem _ h

theorem headI_mem : ∀ (l : List ℚ), l ≠ [] → l.headI ∈ l := by
  intro l h
  cases l with
  | nil => exact absurd rfl h
  | cons a t => exact List.mem_cons_self _ _

theorem le_pyMax (l : List ℚ) (x : ℚ) (hx : x ∈ l) : x ≤ pyMax l :=
  le_foldl_max l l.headI x hx

theorem pyMax_mem (l : List ℚ) (h : l ≠ []) : pyMax l ∈ l := by
  rcases foldl_max_mem l l.headI with hm | hm
  · rw [pyMax, hm]; exact headI_mem l h
  · exact hm

theorem foldl_min_le_init : ∀ (l : List ℚ) (init : ℚ),
    l.foldl min init ≤ init := by
  intro l
  induction l with
  | nil => intro init; exact le_refl _
  | cons a t ih =>
    intro init
    calc t.foldl min (min init a) ≤ min init a := ih _
      _ ≤ init := min_le_left _ _

theorem foldl_min_le : ∀ (l : List ℚ) (init x : ℚ), x ∈ l →
    l.foldl min init ≤ x := by
  intro l
  induction l with
  | nil => intro init x hx; simp at hx
  | cons a t ih =>
    intro init x hx
    rcases List.mem_cons.mp hx with rfl | hxt
    · calc t.foldl min (min init x) ≤ min init x := foldl_min_le_init _ _
        _ ≤ x := min_le_right _ _
    · exact ih _ x hxt

theorem foldl_min_mem : ∀ (l : List ℚ) (init : ℚ),
    l.foldl min init = init ∨ l.foldl min init ∈ l := by
  intro l
  induction l with
  | nil => intro init; exact Or.inl rfl
  | cons a t ih =>
    intro init
    rcases ih (min init a) with h | h
    · rcases min_choice init a with hm | hm
      · left; rw [List.foldl_cons, h, hm]
      · right; rw [List.foldl_cons, h, hm]; exact List.mem_cons_self _ _
    · right; exact List.mem_cons_of_mem _ h

theorem pyMin_le (l : List ℚ) (x : ℚ) (hx : x ∈ l) : pyMin l ≤ x :=
  foldl_min_le l l.headI x hx

theorem pyMin_mem (l : List ℚ) (h : l ≠ []) : pyMin l ∈ l := by
  rcases foldl_min_mem l l.headI with hm | hm
  · rw [pyMin, hm]; exact headI_mem l h
  · exact hm

theorem getD_pyIndexOf {α : Type} [Inhabited α] (f : α → ℚ) :
    ∀ (L : List α) (v : ℚ), v ∈ L.map f →
      L.getD (pyIndexOf v (L.map f)) default ∈ L ∧
      f (L.getD (pyIndexOf v (L.map f)) default) = v := by
  intro L
  induction L with
  | nil => intro v hv; simp at hv
  | cons a t ih =>
    intro v hv
    by_cases hfa : f a = v
    · rw [List.map_cons, pyIndexOf, if_pos hfa]
      exact ⟨List.mem_cons_self _ _, hfa⟩
    · have hvt : v ∈ t.map f := by
        rw [List.map_cons] at hv
        rcases List.mem_cons.mp hv with h | h
        · exact absurd h.symm hfa
        · exact h
      rw [List.map_cons, pyIndexOf, if_neg hfa]
      have hrec := ih v hvt
      exact ⟨List.mem_cons_of_mem _ hrec.1, hrec.2⟩

theorem pyIndexOf_getElem : ∀ (l : List ℚ), l.Nodup →
    ∀ (i : ℕ) (hi : i < l.length), pyIndexOf (l.get ⟨i, hi⟩) l = i := by
  intro l
  induction l with
  | nil => intro _ i hi; simp at hi
  | cons a t ih =>
    intro hnd i hi
    cases i with
    | zero => simp [pyIndexOf]
    | succ n =>
      have hn : n < t.length := by simpa using hi
      have hget : (a :: t).get ⟨n + 1, hi⟩ = t.get ⟨n, hn⟩ := rfl
      rw [hget, pyIndexOf]
      have hne : a ≠ t.get ⟨n, hn⟩ := by
        intro hcontra
        exact (List.nodup_cons.mp hnd).1 (hcontra ▸ List.get_mem t n hn)
      rw [if_neg hne, ih (List.nodup_cons.mp hnd).2 n hn]

theorem pyIndexOf_lt_length (v : ℚ) : ∀ (l : List ℚ), v ∈ l →
    pyIndexOf v l < l.length := by
  intro l
  induction l with
  | nil => intro hv; simp at hv
  | cons a t ih =>
    intro hv
    by_cases ha : a = v
    · rw [pyIndexOf, if_pos ha]; simp
    · rw [pyIndexOf, if_neg ha]
      have hvt : v ∈ t := by
        rcases List.mem_cons.mp hv with rfl | hvt
        · exact absurd rfl ha
        · exact hvt
      simpa using ih hvt

theorem merge_prv_insert_fields : ∀ (s : List Detection) (lat : AlertRecord),
    (merge_prv_insert lat s).candidate = lat.candidate ∧
    (merge_prv_insert lat s).objectId = lat.objectId := by
  intro s
  induction s with
  | nil => intro lat; exact ⟨rfl, rfl⟩
  | cons d rest ih =>
    intro lat
    rw [merge_prv_insert, List.foldl_cons]
    by_cases hd : d ∈ lat.prv_candidates
    · rw [if_pos hd]; exact ih lat
    · rw [if_neg hd]; exact ih _

theorem merge_prv_insert_mono : ∀ (s : List Detection) (lat : AlertRecord),
    lat.prv_candidates ⊆ (merge_prv_insert lat s).prv_candidates := by
  intro s
  induction s with
  | nil => intro lat d hd; exact hd
  | cons d rest ih =>
    intro lat e he
    rw [merge_prv_insert, List.foldl_cons]
    by_cases hd : d ∈ lat.prv_candidates
    · rw [if_pos hd]; exact ih lat he
    · rw [if_neg hd]
      exact ih _ (List.mem_cons_of_mem _ he)

theorem merge_prv_insert_covers : ∀ (s : List Detection) (lat : AlertRecord),
    ∀ d ∈ s, d ∈ (merge_prv_insert lat s).prv_candidates := by
  intro s
  induction s with
  | nil => intro lat d hd; simp at hd
  | cons e rest ih =>
    intro lat d hd
    rw [merge_prv_insert, List.foldl_cons]
    rcases List.mem_cons.mp hd with rfl | hdr
    · by_cases he : d ∈ lat.prv_candidates
      · rw [if_pos he]
        exact merge_prv_insert_mono rest lat he
      · rw [if_neg he]
        exact merge_prv_insert_mono rest _ (List.mem_cons_self _ _)
    · by_cases he : e ∈ lat.prv_candidates
      · rw [if_pos he]; exact ih lat d hdr
      · rw [if_neg he]; exact ih _ d hdr

theorem merge_fold_fields (alerts : List AlertRecord) (li : ℕ) :
    ∀ (idxs : List ℕ) (lat : AlertRecord),
      ((idxs.foldl (merge_absorb alerts li) lat).candidate = lat.candidate ∧
       (idxs.foldl (merge_absorb alerts li) lat).objectId = lat.objectId) := by
  intro idxs
  induction idxs with
  | nil => intro lat; exact ⟨rfl, rfl⟩
  | cons j rest ih =>
    intro lat
    rw [List.foldl_cons]
    have hstep := merge_prv_insert_fields
      ((if j = li then lat else alerts.getD j default).prv_candidates ++
        [(if j = li then lat else alerts.getD j default).candidate]) lat
    have hrec := ih (merge_absorb alerts li lat j)
    rw [hrec.1, hrec.2]
    exact ⟨hstep.1, hstep.2⟩

theorem merge_fold_mono (alerts : List AlertRecord) (li : ℕ) :
    ∀ (idxs : List ℕ) (lat : AlertRecord),
      lat.prv_candidates ⊆
        (idxs.foldl (merge_absorb alerts li) lat).prv_candidates := by
  intro idxs
  induction idxs with
  | nil => intro lat d hd; exact hd
  | cons j rest ih =>
    intro lat d hd
    rw [List.foldl_cons]
    exact ih (merge_absorb alerts li lat j)
      (merge_prv_insert_mono _ lat hd)

theorem merge_fold_covers (alerts : List AlertRecord) (li : ℕ) :
    ∀ (idxs : List ℕ) (lat : AlertRecord) (idx : ℕ), idx ∈ idxs → idx ≠ li →
      ∀ d ∈ (alerts.getD idx default).prv_candidates ++
          [(alerts.getD idx default).candidate],
        d ∈ (idxs.foldl (merge_absorb alerts li) lat).prv_candidates := by
  intro idxs
  induction idxs with
  | nil => intro lat idx hidx; simp at hidx
  | cons j rest ih =>
    intro lat idx hidx hne d hd
    rw [List.foldl_cons]
    rcases List.mem_cons.mp hidx with rfl | hmem
    · apply merge_fold_mono alerts li rest
      have hx : (if idx = li then lat else alerts.getD idx default)
          = alerts.getD idx default := if_neg hne
      rw [merge_absorb]
      rw [hx]
      exact merge_prv_insert_covers _ lat d hd
    · exact ih (merge_absorb alerts li lat j) idx hmem hne d hd

theorem headI_append (xs ys : List ℚ) (h : xs ≠ []) :
    (xs ++ ys).headI = xs.headI := by
  cases xs with
  | nil => exact absurd rfl h
  | cons a t => rfl

theorem reverse_headI_max : ∀ (l : List ℚ), l.Sorted (· ≤ ·) → l ≠ [] →
    l.reverse.headI ∈ l ∧ ∀ x ∈ l, x ≤ l.reverse.headI := by
  intro l
  induction l with
  | nil => intro _ h; exact absurd rfl h
  | cons a t ih =>
    intro hs _
    rcases List.sorted_cons.mp hs with ⟨hall, hts⟩
    by_cases ht : t = []
    · subst ht
      constructor
      · simp
      · intro x hx
        rcases List.mem_cons.mp hx with rfl | hx
        · simp
        · simp at hx
    · have hrev : t.reverse ≠ [] := by simpa using ht
      have hhead : (a :: t).reverse.headI = t.reverse.headI := by
        rw [List.reverse_cons]
        exact headI_append _ _ hrev
      obtain ⟨hmem, hub⟩ := ih hts ht
      rw [hhead]
      constructor
      · exact List.mem_cons_of_mem _ hmem
      · intro x hx
        rcases List.mem_cons.mp hx with rfl | hx
        · exact le_trans (hall _ hmem) (le_refl _)
        · exact hub x hx

theorem sortDescending_headI (l : List ℚ) (h : l ≠ []) :
    (sortDescending l).headI = pyMax l := by
  have hsort := List.sorted_insertionSort (· ≤ ·) l
  have hperm := List.perm_insertionSort (· ≤ ·) l
  have hne : List.insertionSort (· ≤ ·) l ≠ [] := by
    intro hc
    apply h
    have hlen := hperm.length_eq
    rw [hc] at hlen
    exact List.length_eq_zero.mp hlen.symm
  obtain ⟨hmem, hub⟩ := reverse_headI_max _ hsort hne
  rw [sortDescending]
  refine le_antisymm ?_ ?_
  · exact le_pyMax l _ (hperm.mem_iff.mp hmem)
  · exact hub _ (hperm.mem_iff.mpr (pyMax_mem l h))

theorem mem_groupFor {l : List AlertRecord} {k : String} {a : AlertRecord} :
    a ∈ groupFor l k ↔ a ∈ l ∧ a.objectId = k := by
  simp [groupFor, List.mem_filter]

theorem groupFor_ne_nil {l : List AlertRecord} {k : String}
    (hk : k ∈ l.map (fun a => a.objectId)) : groupFor l k ≠ [] := by
  obtain ⟨a, hal, hak⟩ := List.mem_map.mp hk
  exact List.ne_nil_of_mem (mem_groupFor.mpr ⟨hal, hak⟩)

theorem merge_group_eq (g : List AlertRecord) :
    merge_group g =
      (((sortDescending (g.map fun a => a.candidate.jd)).map
          fun v => pyIndexOf v (g.map fun a => a.candidate.jd)).drop 1).foldl
        (merge_absorb g
          (pyIndexOf (pyMax (g.map fun a => a.candidate.jd))
            (g.map fun a => a.candidate.jd)))
        (candidateWithStart
          (g.getD
            (pyIndexOf (pyMax (g.map fun a => a.candidate.jd))
              (g.map fun a => a.candidate.jd)) default)
          (pyMin (g.map fun a => a.candidate.jdstarthist))) := rfl

theorem merge_group_candidate (g : List AlertRecord) (hg : g ≠ []) :
    ∃ w ∈ g,
      (∀ b ∈ g, b.candidate.jd ≤ w.candidate.jd) ∧
      (merge_group g).candidate =
        { w.candidate with
            jdstarthist := pyMin (g.map fun a => a.candidate.jdstarthist) } ∧
      (merge_group g).objectId = w.objectId := by
  have hjds : (g.map fun a => a.candidate.jd) ≠ [] := by
    simpa using hg
  have hmax : pyMax (g.map fun a => a.candidate.jd) ∈
      (g.map fun a => a.candidate.jd) := pyMax_mem _ hjds
  obtain ⟨hwmem, hwjd⟩ := getD_pyIndexOf (fun a => a.candidate.jd) g _ hmax
  have hfields := merge_fold_fields g
    (pyIndexOf (pyMax (g.map fun a => a.candidate.jd))
      (g.map fun a => a.candidate.jd))
    (((sortDescending (g.map fun a => a.candidate.jd)).map
        fun v => pyIndexOf v (g.map fun a => a.candidate.jd)).drop 1)
    (candidateWithStart
      (g.getD
        (pyIndexOf (pyMax (g.map fun a => a.candidate.jd))
          (g.map fun a => a.candidate.jd)) default)
      (pyMin (g.map fun a => a.candidate.jdstarthist)))
  refine ⟨_, hwmem, ?_, ?_, ?_⟩
  · intro b hb
    rw [hwjd]
    exact le_pyMax _ _ (List.mem_map_of_mem _ hb)
  · rw [merge_group_eq, hfields.1]
    rfl
  · rw [merge_group_eq, hfields.2]
    rfl

theorem mergeFor_spec (l : List AlertRecord) (k : String)
    (hk : k ∈ l.map (fun a => a.objectId)) :
    (mergeFor l k).objectId = k ∧
    ∃ w ∈ groupFor l k,
      (∀ b ∈ groupFor l k, b.candidate.jd ≤ w.candidate.jd) ∧
      w.candidate.jd = (mergeFor l k).candidate.jd ∧
      (mergeFor l k).candidate =
        { w.candidate with
            jdstarthist := (mergeFor l k).candidate.jdstarthist } ∧
      (∀ b ∈ groupFor l k,
        (mergeFor l k).candidate.jdstarthist ≤ b.candidate.jdstarthist) ∧
      (∃ b ∈ groupFor l k,
        (mergeFor l k).candidate.jdstarthist = b.candidate.jdstarthist) := by
  have hgne : groupFor l k ≠ [] := groupFor_ne_nil hk
  rw [mergeFor]
  split_ifs with hlen
  · obtain ⟨a, ha⟩ := List.length_eq_one.mp hlen
    have hmem : a ∈ groupFor l k := by rw [ha]; exact List.mem_cons_self _ _
    have hhead : (groupFor l k).headI = a := by rw [ha]; rfl
    rw [hhead]
    refine ⟨(mem_groupFor.mp hmem).2, a, hmem, ?_, rfl, rfl, ?_,
      ⟨a, hmem, rfl⟩⟩
    · intro b hb
      rw [ha] at hb
      rcases List.mem_cons.mp hb with rfl | hb
      · exact le_refl _
      · simp at hb
    · intro b hb
      rw [ha] at hb
      rcases List.mem_cons.mp hb with rfl | hb
      · exact le_refl _
      · simp at hb
  · obtain ⟨w, hwmem, hwub, hcand, hobj⟩ :=
      merge_group_candidate (groupFor l k) hgne
    have hstarts : (groupFor l k).map (fun a => a.candidate.jdstarthist)
        ≠ [] := by
      simpa using hgne
    have hjdst : (merge_group (groupFor l k)).candidate.jdstarthist =
        pyMin ((groupFor l k).map fun a => a.candidate.jdstarthist) := by
      rw [hcand]
    refine ⟨by rw [hobj]; exact (mem_groupFor.mp hwmem).2,
      w, hwmem, hwub, by rw [hcand], by rw [hcand], ?_, ?_⟩
    · intro b hb
      rw [hjdst]
      exact pyMin_le _ _ (List.mem_map_of_mem _ hb)
    · obtain ⟨b, hbmem, hbeq⟩ := List.mem_map.mp (pyMin_mem _ hstarts)
      exact ⟨b, hbmem, by rw [hjdst, hbeq]⟩

theorem merge_group_covers (g : List AlertRecord) (hg : g ≠ [])
    (hnd : (g.map fun a => a.candidate.jd).Nodup) :
    ∀ a ∈ g, ∀ d ∈ a.prv_candidates ++ [a.candidate],
      d ∈ (merge_group g).prv_candidates ∨
      (merge_group g).candidate =
        { d with jdstarthist := (merge_group g).candidate.jdstarthist } := by
  have hjds : (g.map fun a => a.candidate.jd) ≠ [] := by simpa using hg
  have hmax : pyMax (g.map fun a => a.candidate.jd) ∈
      (g.map fun a => a.candidate.jd) := pyMax_mem _ hjds
  have hli : pyIndexOf (pyMax (g.map fun a => a.candidate.jd))
      (g.map fun a => a.candidate.jd) <
      (g.map fun a => a.candidate.jd).length :=
    pyIndexOf_lt_length _ _ hmax
  have hlig : pyIndexOf (pyMax (g.map fun a => a.candidate.jd))
      (g.map fun a => a.candidate.jd) < g.length := by
    simpa using hli
  have hsne : sortDescending (g.map fun a => a.candidate.jd) ≠ [] :=
    sortDescending_ne_nil _ hjds
  obtain ⟨v0, vt, hsds⟩ := List.exists_cons_of_ne_nil hsne
  have hv0 : v0 = pyMax (g.map fun a => a.candidate.jd) := by
    have hh := sortDescending_headI (g.map fun a => a.candidate.jd) hjds
    rw [hsds] at hh
    exact hh
  have horder : (sortDescending (g.map fun a => a.candidate.jd)).map
      (fun v => pyIndexOf v (g.map fun a => a.candidate.jd)) =
      pyIndexOf (pyMax (g.map fun a => a.candidate.jd))
        (g.map fun a => a.candidate.jd) ::
      vt.map (fun v => pyIndexOf v (g.map fun a => a.candidate.jd)) := by
    rw [hsds, List.map_cons, hv0]
  intro a ha d hd
  obtain ⟨⟨i, hi⟩, hget⟩ := List.mem_iff_get.mp ha
  have hjdi : (g.map fun a => a.candidate.jd).get
      ⟨i, by simpa using hi⟩ = a.candidate.jd := by
    rw [List.get_map]
    exact congrArg (fun r => r.candidate.jd) hget
  by_cases hcase : i = pyIndexOf (pyMax (g.map fun a => a.candidate.jd))
      (g.map fun a => a.candidate.jd)
  · have hw : g.getD (pyIndexOf (pyMax (g.map fun a => a.candidate.jd))
        (g.map fun a => a.candidate.jd)) default = a := by
      rw [← hcase, List.getD_eq_get g default hi]
      exact hget
    rcases List.mem_append.mp hd with hdp | hdc
    · left
      rw [merge_group_eq]
      apply merge_fold_mono
      rw [hw]
      exact hdp
    · right
      have hdc2 : d = a.candidate := by simpa using hdc
      have hfields := merge_fold_fields g
        (pyIndexOf (pyMax (g.map fun a => a.candidate.jd))
          (g.map fun a => a.candidate.jd))
        (((sortDescending (g.map fun a => a.candidate.jd)).map
            fun v => pyIndexOf v (g.map fun a => a.candidate.jd)).drop 1)
        (candidateWithStart
          (g.getD
            (pyIndexOf (pyMax (g.map fun a => a.candidate.jd))
              (g.map fun a => a.candidate.jd)) default)
          (pyMin (g.map fun a => a.candidate.jdstarthist)))
      have hcand : (merge_group g).candidate =
          { a.candidate with
              jdstarthist :=
                pyMin (g.map fun a => a.candidate.jdstarthist) } := by
        rw [merge_group_eq, hfields.1, hw]
        rfl
      rw [hcand, hdc2]
  · left
    have himem : i ∈ (sortDescending (g.map fun a => a.candidate.jd)).map
        (fun v => pyIndexOf v (g.map fun a => a.candidate.jd)) := by
      apply List.mem_map.mpr
      refine ⟨(g.map fun a => a.candidate.jd).get ⟨i, by simpa using hi⟩,
        ?_, ?_⟩
      · exact (sortDescending_perm _).mem_iff.mpr (List.get_mem _ _ _)
      · exact pyIndexOf_getElem _ hnd i (by simpa using hi)
    have hitail : i ∈ vt.map
        (fun v => pyIndexOf v (g.map fun a => a.candidate.jd)) := by
      rw [horder] at himem
      rcases List.mem_cons.mp himem with heq | htl
      · exact absurd heq hcase
      · exact htl
    rw [merge_group_eq]
    have hdrop : (((sortDescending (g.map fun a => a.candidate.jd)).map
        fun v => pyIndexOf v (g.map fun a => a.candidate.jd)).drop 1) =
        vt.map (fun v => pyIndexOf v (g.map fun a => a.candidate.jd)) := by
      rw [horder]
      rfl
    rw [hdrop]
    have hcov := merge_fold_covers g
      (pyIndexOf (pyMax (g.map fun a => a.candidate.jd))
        (g.map fun a => a.candidate.jd))
      (vt.map (fun v => pyIndexOf v (g.map fun a => a.candidate.jd)))
      (candidateWithStart
        (g.getD (pyIndexOf (pyMax (g.map fun a => a.candidate.jd))
          (g.map fun a => a.candidate.jd)) default)
        (pyMin (g.map fun a => a.candidate.jdstarthist)))
      i hitail hcase d
    apply hcov
    have hgetd : g.getD i default = a := by
      rw [List.getD_eq_get g default hi]
      exact hget
    rw [hgetd]
    exact hd

theorem latest_detection_eq_none (res : AlertRecord) :
    latest_detection res = none ↔ res.prv_candidates = [] := by
  unfold latest_detection
  by_cases h : res.prv_candidates = []
  · simp [h]
  · have hm : res.prv_candidates.map (fun x => x.jd) ≠ [] := by
      simpa using h
    rw [if_neg hm]
    constructor
    · intro hc
      by_cases hlt : pyMax (res.prv_candidates.map fun x => x.jd) <
          res.candidate.jd
      · rw [if_pos hlt] at hc; exact absurd hc (by simp)
      · rw [if_neg hlt] at hc; exact absurd hc (by simp)
    · intro hc; exact absurd hc h

theorem parse_rows_some (L : List (String × AlertRecord))
    (rows : List (String × Detection)) (h : parse_rows L = some rows) :
    ∀ p ∈ L, p.2.prv_candidates ≠ [] := by
  induction L generalizing rows with
  | nil => intro p hp; simp at hp
  | cons q rest ih =>
    intro p hp
    rw [parse_rows] at h
    rcases hld : latest_detection q.2 with _ | d
    · rw [hld] at h; exact absurd h (by simp)
    · rw [hld] at h
      rcases hpr : parse_rows rest with _ | rows2
      · rw [hpr] at h; exact absurd h (by simp)
      · rw [hpr] at h
        rcases List.mem_cons.mp hp with rfl | hmem
        · intro hnil
          rw [(latest_detection_eq_none p.2).mpr hnil] at hld
          exact absurd hld (by simp)
        · exact ih rows2 hpr p hmem

theorem groupFor_map_mergeFor (l : List AlertRecord) :
    ∀ (keys : List String), keys.Nodup →
      (∀ q ∈ keys, (mergeFor l q).objectId = q) →
      ∀ k ∈ keys, groupFor (keys.map (mergeFor l)) k = [mergeFor l k] := by
  intro keys
  induction keys with
  | nil => intro _ _ k hk; simp at hk
  | cons k0 rest ih =>
    intro hnd hobj k hk
    rw [List.map_cons, groupFor, List.filter_cons]
    rcases List.mem_cons.mp hk with rfl | hkr
    · have hk0 : (mergeFor l k).objectId = k := hobj k (List.mem_cons_self _ _)
      rw [if_pos (by simpa using hk0)]
      have hnil : (rest.map (mergeFor l)).filter
          (fun a => decide (a.objectId = k)) = [] := by
        apply List.filter_eq_nil.mpr
        intro b hb
        obtain ⟨q, hq, rfl⟩ := List.mem_map.mp hb
        have hbq : (mergeFor l q).objectId = q :=
          hobj q (List.mem_cons_of_mem _ hq)
        simp only [hbq, decide_eq_true_eq]
        intro hcontra
        exact (List.nodup_cons.mp hnd).1 (hcontra ▸ hq)
      rw [show (List.filter (fun a => decide (a.objectId = k))
        (rest.map (mergeFor l))) = groupFor (rest.map (mergeFor l)) k
        from rfl] at hnil
      rw [show (List.filter (fun a => decide (a.objectId = k))
        (rest.map (mergeFor l))) = groupFor (rest.map (mergeFor l)) k
        from rfl]
      rw [hnil]
    · have hk0 : (mergeFor l k0).objectId = k0 := hobj k0 (List.mem_cons_self _ _)
      have hne : ¬ ((mergeFor l k0).objectId = k) := by
        rw [hk0]
        intro hcontra
        exact (List.nodup_cons.mp hnd).1 (hcontra ▸ hkr)
      rw [if_neg (by simpa using hne)]
      have hrest := ih (List.nodup_cons.mp hnd).2
        (fun q hq => hobj q (List.mem_cons_of_mem _ hq)) k hkr
      rw [groupFor] at hrest
      exact hrest

theorem merge_alerts_map_objectId (l : List AlertRecord) :
    (merge_alerts l).map (fun a => a.objectId) =
      (l.map fun a => a.objectId).dedup := by
  rw [merge_alerts, List.map_map]
  have hpt : ∀ k ∈ (l.map fun a => a.objectId).dedup,
      ((fun a => a.objectId) ∘ mergeFor l) k = id k := by
    intro k hk
    exact (mergeFor_spec l k (List.mem_dedup.mp hk)).1
  rw [List.map_congr_left hpt, List.map_id]

/-! ## Claim theorems -/

/-- C1 (amended): two successive `scan_cones(max_cones = n)` calls on a fresh
scanner with a duplicate-free cone list issue cone searches for exactly the
first `n` cones of the list, each searched exactly once; the remaining cones
are never searched, because each call iterates only the prefix
`cone_ids[:max_cones]` and skips cones already in `scanned_pixels`. -/
theorem scan_cones_half_twice (cone_ids : List ℕ) (n : ℕ)
    (h : cone_ids.Nodup) :
    (scan_cones cone_ids (some n)
        (scan_cones cone_ids (some n) initialScanState)).searched
      = cone_ids.take n ∧
    (scan_cones cone_ids (some n)
        (scan_cones cone_ids (some n) initialScanState)).scanned_pixels
      = cone_ids.take n ∧
    ∀ c, (scan_cones cone_ids (some n)
        (scan_cones cone_ids (some n) initialScanState)).searched.count c
      = if c ∈ cone_ids.take n then 1 else 0 := by
  have htake : (cone_ids.take n).Nodup :=
    h.sublist (List.take_sublist n cone_ids)
  have h1 : scan_cones cone_ids (some n) initialScanState =
      ⟨cone_ids.take n, cone_ids.take n⟩ := by
    rw [scan_cones]
    simpa using scan_cones_loop_fresh _ initialScanState htake
      (by simp [initialScanState])
  have h2 : scan_cones cone_ids (some n) ⟨cone_ids.take n, cone_ids.take n⟩ =
      ⟨cone_ids.take n, cone_ids.take n⟩ := by
    rw [scan_cones]
    exact scan_cones_loop_skip _ _ (fun c hc => hc)
  rw [h1, h2]
  refine ⟨rfl, rfl, ?_⟩
  intro c
  by_cases hc : c ∈ cone_ids.take n
  · rw [if_pos hc]
    exact List.count_eq_one_of_mem htake hc
  · rw [if_neg hc]
    exact List.count_eq_zero.mpr hc

/-- Witness for C1: four distinct cones, two calls with `max_cones = 2`;
cones 7 and 8 are searched once, cone 9 never. -/
theorem scan_cones_half_twice_witness :
    (scan_cones [7, 8, 9, 10] (some 2)
        (scan_cones [7, 8, 9, 10] (some 2) initialScanState)).searched
      = [7, 8] ∧
    (scan_cones [7, 8, 9, 10] (some 2)
        (scan_cones [7, 8, 9, 10] (some 2) initialScanState)).searched.count 7
      = 1 ∧
    (scan_cones [7, 8, 9, 10] (some 2)
        (scan_cones [7, 8, 9, 10] (some 2) initialScanState)).searched.count 9
      = 0 := by
  have h := scan_cones_half_twice [7, 8, 9, 10] 2 (by decide)
  exact ⟨h.1.trans (by decide), (h.2.2 7).trans (by decide),
    (h.2.2 9).trans (by decide)⟩

/-- Counterexample to C1 as stated: with K = 2 cones and two calls of
`scan_cones(max_cones = 1)`, cone 8 is never cone-searched, so not every one
of the K cones is searched exactly once. -/
theorem scan_cones_half_twice_counterexample :
    (scan_cones [7, 8] (some 1)
        (scan_cones [7, 8] (some 1) initialScanState)).searched = [7] ∧
    8 ∈ ([7, 8] : List ℕ) ∧
    (scan_cones [7, 8] (some 1)
        (scan_cones [7, 8] (some 1) initialScanState)).searched.count 8
      = 0 := by
  decide

/-- C2: on the four-pixel distribution [0.5, 0.3, 0.15, 0.05] with
`prob_threshold = 0.9` the code computes `pixel_threshold = 0.15`, but the
mask `data > pixel_threshold` is strict, so only the top two pixels are
selected and their summed probability 0.8 falls short of the 0.9 threshold —
the claimed ties-included `>=` selection of the top three pixels does not
happen. -/
theorem threshold_mask_strict_exclusion :
    find_pixel_threshold (9/10) examplePixels = 3/20 ∧
    threshold_mask (9/10) examplePixels = [true, true, false, false] ∧
    credible_region_pixels (9/10) examplePixels = [1/2, 3/10] ∧
    (credible_region_pixels (9/10) examplePixels).sum = 4/5 ∧
    ¬ (9/10 : ℚ) ≤ (credible_region_pixels (9/10) examplePixels).sum := by
  refine ⟨?_, ?_, ?_, ?_, ?_⟩ <;>
    norm_num [examplePixels, threshold_mask, credible_region_pixels,
      find_pixel_threshold, sortDescending, fptLoop,
      List.insertionSort, List.orderedInsert]

/-- C3: for every object id present in the input, the merged output contains
exactly one record for that id; its current detection is an input current
detection of maximal timestamp whose `jdstarthist` has been overwritten with
the minimum `jdstarthist` over all input records for that id.  In particular,
records with current detections at jd 2459000.1 and jd 2459000.5 merge into
one record whose current detection is the jd 2459000.5 one and whose
previous detections contain the jd 2459000.1 detection. -/
theorem merge_alerts_latest_candidate (l : List AlertRecord) (k : String)
    (hk : k ∈ l.map (fun a => a.objectId)) :
    (∃ m ∈ merge_alerts l, m.objectId = k ∧
      (∀ m2 ∈ merge_alerts l, m2.objectId = k → m2 = m) ∧
      (∀ a ∈ groupFor l k, a.candidate.jd ≤ m.candidate.jd) ∧
      (∀ a ∈ groupFor l k, m.candidate.jdstarthist ≤ a.candidate.jdstarthist) ∧
      (∃ a ∈ groupFor l k, m.candidate.jdstarthist = a.candidate.jdstarthist) ∧
      (∃ a ∈ groupFor l k, a.candidate.jd = m.candidate.jd ∧
        m.candidate =
          { a.candidate with jdstarthist := m.candidate.jdstarthist })) ∧
    merge_alerts [exEarly, exLate] =
      [{ objectId := "ZTF21abc",
         candidate := { exLateDet with jdstarthist := 2459000 },
         prv_candidates := [exEarlyDet] }] := by
  constructor
  · have hkd : k ∈ (l.map fun a => a.objectId).dedup := List.mem_dedup.mpr hk
    obtain ⟨hobj, w, hwmem, hub, hjdeq, hcand, hlb, hex⟩ := mergeFor_spec l k hk
    refine ⟨mergeFor l k, List.mem_map_of_mem _ hkd, hobj, ?_, ?_, hlb, hex,
      ⟨w, hwmem, hjdeq, hcand⟩⟩
    · intro m2 hm2 hid
      obtain ⟨q, hq, rfl⟩ := List.mem_map.mp hm2
      have hqk : q = k :=
        ((mergeFor_spec l q (List.mem_dedup.mp hq)).1).symm.trans hid
      rw [hqk]
    · intro a ha
      rw [← hjdeq]
      exact hub a ha
  · norm_num [merge_alerts, mergeFor, groupFor, merge_group, merge_absorb,
      merge_prv_insert, candidateWithStart, pyMax, pyMin, pyIndexOf,
      sortDescending, List.insertionSort, List.orderedInsert, List.dedup,
      exEarly, exLate, exEarlyDet, exLateDet]

/-- Witness for C3 at the two-record example for `ZTF21abc`. -/
theorem merge_alerts_latest_candidate_witness :
    ∃ m ∈ merge_alerts [exEarly, exLate], m.objectId = "ZTF21abc" ∧
      (∀ m2 ∈ merge_alerts [exEarly, exLate], m2.objectId = "ZTF21abc" →
        m2 = m) ∧
      (∀ a ∈ groupFor [exEarly, exLate] "ZTF21abc",
        a.candidate.jd ≤ m.candidate.jd) ∧
      (∀ a ∈ groupFor [exEarly, exLate] "ZTF21abc",
        m.candidate.jdstarthist ≤ a.candidate.jdstarthist) ∧
      (∃ a ∈ groupFor [exEarly, exLate] "ZTF21abc",
        m.candidate.jdstarthist = a.candidate.jdstarthist) ∧
      (∃ a ∈ groupFor [exEarly, exLate] "ZTF21abc",
        a.candidate.jd = m.candidate.jd ∧
        m.candidate =
          { a.candidate with jdstarthist := m.candidate.jdstarthist }) :=
  (merge_alerts_latest_candidate [exEarly, exLate] "ZTF21abc"
    (by simp [exEarly, exLate])).1

/-- C4 (amended): provided the records for an object id have pairwise
distinct current-detection timestamps, every detection appearing as current
or previous in any input record for that id appears in the merged record —
among its previous detections, or as the merged current detection with
`jdstarthist` overwritten by the group minimum. -/
theorem merge_alerts_history_union (l : List AlertRecord) (k : String)
    (hk : k ∈ l.map (fun a => a.objectId))
    (hnd : ((groupFor l k).map fun a => a.candidate.jd).Nodup) :
    ∃ m ∈ merge_alerts l, m.objectId = k ∧
      ∀ a ∈ groupFor l k, ∀ d ∈ a.prv_candidates ++ [a.candidate],
        d ∈ m.prv_candidates ∨
        m.candidate = { d with jdstarthist := m.candidate.jdstarthist } := by
  have hkd : k ∈ (l.map fun a => a.objectId).dedup := List.mem_dedup.mpr hk
  have hgne : groupFor l k ≠ [] := groupFor_ne_nil hk
  refine ⟨mergeFor l k, List.mem_map_of_mem _ hkd, (mergeFor_spec l k hk).1, ?_⟩
  intro a ha d hd
  rw [mergeFor]
  split_ifs with hlen
  · obtain ⟨b, hb⟩ := List.length_eq_one.mp hlen
    have hab : a = b := by
      rw [hb] at ha
      simpa using ha
    have hhead : (groupFor l k).headI = a := by
      rw [hb, hab]
      rfl
    rw [hhead]
    rcases List.mem_append.mp hd with hdp | hdc
    · exact Or.inl hdp
    · right
      have hda : d = a.candidate := by simpa using hdc
      rw [hda]
  · exact merge_group_covers (groupFor l k) hgne hnd a ha d hd

/-- Witness for C4 at the two-record example (distinct timestamps). -/
theorem merge_alerts_history_union_witness :
    ∃ m ∈ merge_alerts [exEarly, exLate], m.objectId = "ZTF21abc" ∧
      ∀ a ∈ groupFor [exEarly, exLate] "ZTF21abc",
        ∀ d ∈ a.prv_candidates ++ [a.candidate],
          d ∈ m.prv_candidates ∨
          m.candidate = { d with jdstarthist := m.candidate.jdstarthist } :=
  merge_alerts_history_union [exEarly, exLate] "ZTF21abc"
    (by simp [exEarly, exLate])
    (by norm_num [groupFor, exEarly, exLate, exEarlyDet, exLateDet])

/-- Counterexample to C4 as stated: two records for `ZTF21tie` whose current
detections share jd = 5 but differ in position.  `order = [jds.index(x) for x
in sorted(jds)[::-1]]` repeats index 0, so the second record is never
absorbed: its current detection `tieDetB` appears in no merged record,
neither as current detection nor among previous detections. -/
theorem merge_alerts_history_union_counterexample :
    merge_alerts [tieA, tieB] =
      [{ objectId := "ZTF21tie", candidate := tieDetA,
         prv_candidates := [tieDetA] }] ∧
    tieB.candidate = tieDetB ∧
    tieDetB ≠ tieDetA ∧
    tieDetB ∉ [tieDetA] := by
  refine ⟨?_, rfl, ?_, ?_⟩
  · norm_num [merge_alerts, mergeFor, groupFor, merge_group, merge_absorb,
      merge_prv_insert, candidateWithStart, pyMax, pyMin, pyIndexOf,
      sortDescending, List.insertionSort, List.orderedInsert, List.dedup,
      tieA, tieB, tieDetA, tieDetB]
  · norm_num [tieDetA, tieDetB]
  · norm_num [tieDetA, tieDetB]

/-- C5 (amended): `merge_alerts` is idempotent as a function iterate —
`merge_alerts (merge_alerts l) = merge_alerts l` for every input list,
because the merged output has one record per object id and singleton groups
pass through unchanged.  (Re-merging a merged set concatenated with itself is
NOT a no-op; see the counterexample.) -/
theorem merge_alerts_idempotent (l : List AlertRecord) :
    merge_alerts (merge_alerts l) = merge_alerts l := by
  have hmap := merge_alerts_map_objectId l
  have hkeys : ∀ q ∈ (l.map fun a => a.objectId).dedup,
      (mergeFor l q).objectId = q :=
    fun q hq => (mergeFor_spec l q (List.mem_dedup.mp hq)).1
  conv_lhs => rw [merge_alerts]
  rw [hmap, List.dedup_eq_self.mpr (List.nodup_dedup _)]
  conv_rhs => rw [merge_alerts]
  apply List.map_congr_left
  intro k hk
  have hgrp : groupFor (merge_alerts l) k = [mergeFor l k] := by
    have hg := groupFor_map_mergeFor l ((l.map fun a => a.objectId).dedup)
      (List.nodup_dedup _) hkeys k hk
    rw [merge_alerts]
    exact hg
  rw [mergeFor, hgrp]
  rfl

/-- Counterexample to C5 as stated: merging an already-merged set with itself
is not a no-op — for the merged record `selfA`, re-merging `[selfA] ++
[selfA]` prepends the current detection into the previous detections. -/
theorem merge_alerts_idempotent_counterexample :
    merge_alerts [selfA] = [selfA] ∧
    merge_alerts (merge_alerts [selfA] ++ merge_alerts [selfA]) ≠
      merge_alerts [selfA] := by
  have h1 : merge_alerts [selfA] = [selfA] := by
    norm_num [merge_alerts, mergeFor, groupFor, List.dedup, selfA]
  refine ⟨h1, ?_⟩
  rw [h1]
  norm_num [merge_alerts, mergeFor, groupFor, merge_group, merge_absorb,
    merge_prv_insert, candidateWithStart, pyMax, pyMin, pyIndexOf,
    sortDescending, List.insertionSort, List.orderedInsert, List.dedup,
    selfA, selfDet, selfPrv]

/-- C6: the cache upsert inserts when the object id is absent, replaces
exactly when the incoming current-detection timestamp is strictly greater,
and therefore, after upserting two records with timestamps t1 < t2 for the
same id in either call order, the cached record is the t2 one. -/
theorem add_res_to_cache_monotonic :
    (∀ (c : Cache) (a : AlertRecord), c a.objectId = none →
      add_res_to_cache c [a] a.objectId = some a) ∧
    (∀ (c : Cache) (a cached : AlertRecord), c a.objectId = some cached →
      add_res_to_cache c [a] a.objectId =
        if cached.candidate.jd < a.candidate.jd then some a
        else some cached) ∧
    (∀ (r1 r2 : AlertRecord), r1.objectId = r2.objectId →
      r1.candidate.jd < r2.candidate.jd →
      add_res_to_cache (add_res_to_cache emptyCache [r1]) [r2] r2.objectId
          = some r2 ∧
      add_res_to_cache (add_res_to_cache emptyCache [r2]) [r1] r1.objectId
          = some r2) := by
  refine ⟨?_, ?_, ?_⟩
  · intro c a h
    rw [add_res_one_absent c a h]
    simp [cacheInsert]
  · intro c a cached h
    rw [add_res_one_present c a cached h]
    split_ifs with hlt
    · simp [cacheInsert]
    · simp [cacheInsert, h]
  · intro r1 r2 hid hlt
    have h1 : add_res_to_cache emptyCache [r1]
        = cacheInsert emptyCache r1.objectId r1 :=
      add_res_one_absent _ _ rfl
    have h2 : add_res_to_cache emptyCache [r2]
        = cacheInsert emptyCache r2.objectId r2 :=
      add_res_one_absent _ _ rfl
    constructor
    · have hl : cacheInsert emptyCache r1.objectId r1 r2.objectId
          = some r1 := by
        simp [cacheInsert, hid]
      rw [h1, add_res_one_present _ _ r1 hl, if_pos hlt]
      simp [cacheInsert]
    · have hl : cacheInsert emptyCache r2.objectId r2 r1.objectId
          = some r2 := by
        simp [cacheInsert, hid]
      rw [h2, add_res_one_present _ _ r2 hl, if_neg (not_lt.mpr (le_of_lt hlt))]
      simp [cacheInsert, hid]

/-- Witness for C6: records with timestamps 5 and 7 for `ZTF21abc`, upserted
in either order, leave the jd = 7 record cached. -/
theorem add_res_to_cache_monotonic_witness :
    add_res_to_cache (add_res_to_cache emptyCache [cacheRecT1]) [cacheRecT2]
        "ZTF21abc" = some cacheRecT2 ∧
    add_res_to_cache (add_res_to_cache emptyCache [cacheRecT2]) [cacheRecT1]
        "ZTF21abc" = some cacheRecT2 := by
  have h := add_res_to_cache_monotonic.2.2 cacheRecT1 cacheRecT2 rfl
    (by norm_num [cacheRecT1, cacheRecT2, tieDetA, selfDet])
  exact ⟨h.1, h.2⟩

/-- C7 (amended): the history filter retains a record exactly when
`jdstarthist >= t_min`, the detection history spans at least 0.01 days, and
at least one previous detection is positive and strictly inside the event
window; the positive-current-detection flag and the sky-containment test of
the `no_prv` filter are NOT re-checked by the history filter. -/
theorem filter_f_history_characterization (t_min t_max : ℚ)
    (res : AlertRecord) :
    filter_f_history t_min t_max res = true ↔
      (t_min ≤ res.candidate.jdstarthist ∧
       1/100 ≤ res.candidate.jdendhist - res.candidate.jdstarthist ∧
       ∃ x ∈ res.prv_candidates, x.isdiffpos ≠ none ∧ t_min < x.jd ∧
         x.jd < t_max ∧ is_positive_diff x.isdiffpos = true) := by
  unfold filter_f_history
  split_ifs with h1 h2
  · simp only [Bool.false_eq_true, false_iff]
    rintro ⟨ha, -⟩
    exact absurd ha (not_le.mpr h1)
  · simp only [Bool.false_eq_true, false_iff]
    rintro ⟨-, hb, -⟩
    exact absurd hb (not_le.mpr h2)
  · by_cases h3 : (List.filter (fun x => is_positive_diff x.isdiffpos)
        (List.filter (fun x => decide (x.isdiffpos ≠ none)
          && decide (t_min < x.jd) && decide (x.jd < t_max))
          res.prv_candidates)).length < 1
    · rw [if_pos h3]
      simp only [Bool.false_eq_true, false_iff]
      rintro ⟨-, -, x, hx, hnn, hlo, hhi, hpos⟩
      have hmemf : x ∈ List.filter (fun x => is_positive_diff x.isdiffpos)
          (List.filter (fun x => decide (x.isdiffpos ≠ none)
            && decide (t_min < x.jd) && decide (x.jd < t_max))
            res.prv_candidates) := by
        rw [List.mem_filter, List.mem_filter]
        refine ⟨⟨hx, ?_⟩, hpos⟩
        simp [hnn, hlo, hhi]
      have hlen := List.length_pos.mpr (List.ne_nil_of_mem hmemf)
      omega
    · rw [if_neg h3]
      simp only [true_iff]
      refine ⟨not_lt.mp h1, not_lt.mp h2, ?_⟩
      have hne : List.filter (fun x => is_positive_diff x.isdiffpos)
          (List.filter (fun x => decide (x.isdiffpos ≠ none)
            && decide (t_min < x.jd) && decide (x.jd < t_max))
            res.prv_candidates) ≠ [] := by
        intro hnil
        rw [hnil] at h3
        simp at h3
      obtain ⟨x, hx⟩ := List.exists_mem_of_ne_nil _ hne
      rw [List.mem_filter, List.mem_filter] at hx
      obtain ⟨⟨hmem, hcond⟩, hpos⟩ := hx
      simp only [Bool.and_eq_true, decide_eq_true_eq] at hcond
      exact ⟨x, hmem, hcond.1.1, hcond.1.2, hcond.2, hpos⟩

/-- Counterexample to C7 as stated: a record whose current detection is a
negative subtraction (so the `no_prv` positive-flag predicate fails) is
nevertheless retained by the history filter. -/
theorem filter_f_history_ignores_no_prv_checks :
    filter_f_history 0 10 negCurrentRec = true ∧
    is_positive_diff negCurrentRec.candidate.isdiffpos = false ∧
    filter_f_no_prv 0 (fun _ _ => true) negCurrentRec = false := by
  refine ⟨?_, ?_, ?_⟩
  · norm_num [filter_f_history, negCurrentRec, is_positive_diff]
    decide
  · norm_num [negCurrentRec, is_positive_diff]
    decide
  · norm_num [filter_f_no_prv, negCurrentRec, is_positive_diff]
    decide

/-- C8 (amended): when the cumulative pixel sum never exceeds the configured
probability threshold (nonnegative pixels with total <= t), the code raises
no error: `find_pixel_threshold` returns the initial value `0.0`, and the
credible-region mask silently degrades to all pixels with positive
probability. -/
theorem find_pixel_threshold_unreachable (t : ℚ) (data : List ℚ)
    (hpos : ∀ p ∈ data, 0 ≤ p) (hsum : data.sum ≤ t) :
    find_pixel_threshold t data = 0 ∧
    threshold_mask t data = data.map (fun p => decide (0 < p)) := by
  have hperm := sortDescending_perm data
  have h0 : find_pixel_threshold t data = 0 := by
    rw [find_pixel_threshold]
    apply fptLoop_eq_zero
    · intro p hp; exact hpos p (hperm.mem_iff.mp hp)
    · rw [zero_add, hperm.sum_eq]; exact hsum
  refine ⟨h0, ?_⟩
  rw [threshold_mask, h0]

/-- Witness for C8 at `prob_threshold = 1.1` over the example pixels. -/
theorem find_pixel_threshold_unreachable_witness :
    (∀ p ∈ examplePixels, (0 : ℚ) ≤ p) ∧ examplePixels.sum ≤ 11/10 ∧
    find_pixel_threshold (11/10) examplePixels = 0 ∧
    threshold_mask (11/10) examplePixels = [true, true, true, true] := by
  have hpos : ∀ p ∈ examplePixels, (0 : ℚ) ≤ p := by
    intro p hp
    simp only [examplePixels, List.mem_cons, List.not_mem_nil, or_false] at hp
    rcases hp with rfl | rfl | rfl | rfl <;> norm_num
  have hsum : examplePixels.sum ≤ 11/10 := by norm_num [examplePixels]
  have h := find_pixel_threshold_unreachable (11/10) examplePixels hpos hsum
  refine ⟨hpos, hsum, h.1, h.2.trans ?_⟩
  norm_num [examplePixels]

/-- Counterexample to C8 as stated: with `prob_threshold = 1.1` the scan does
not fail fast — `find_pixel_threshold` returns 0.0 and the mask selects all
four pixels instead of raising a configuration error (and instead of
selecting zero pixels). -/
theorem find_pixel_threshold_unreachable_counterexample :
    find_pixel_threshold (11/10) examplePixels = 0 ∧
    threshold_mask (11/10) examplePixels = [true, true, true, true] ∧
    (credible_region_pixels (11/10) examplePixels).length = 4 := by
  refine ⟨?_, ?_, ?_⟩ <;>
    norm_num [examplePixels, threshold_mask, credible_region_pixels,
      find_pixel_threshold, sortDescending, fptLoop,
      List.insertionSort, List.orderedInsert]

/-- C9: for the cone pixel at spherical coordinates theta = pi/2,
phi = pi/2 (RA 90 degrees, Dec 0), the legacy `ampel_magic` path issues the
cone search at the cone center in degrees, but the `nuztf/base_scanner` path
applies `np.degrees` to coordinates that `extract_ra_dec` already returned in
degrees, so the issued center is NOT the cone center in degrees. -/
theorem issued_center_unit_mismatch :
    issued_center_legacy (Real.pi / 2) (Real.pi / 2) = (90, 0) ∧
    extract_ra_dec_nuztf (Real.pi / 2) (Real.pi / 2) = (90, 0) ∧
    issued_center_nuztf (Real.pi / 2) (Real.pi / 2) ≠ (90, 0) := by
  have hpi : Real.pi ≠ 0 := Real.pi_ne_zero
  have hdeg : rad2deg (Real.pi / 2) = 90 := by
    rw [rad2deg]; field_simp; ring
  have hzero : rad2deg (Real.pi / 2 - Real.pi / 2) = 0 := by
    rw [rad2deg]; ring_nf
  refine ⟨?_, ?_, ?_⟩
  · rw [issued_center_legacy, extract_ra_dec_legacy]
    simp only [hdeg]
    rw [Prod.mk.injEq]
    exact ⟨rfl, hzero⟩
  · rw [extract_ra_dec_nuztf, Prod.mk.injEq]
    exact ⟨hdeg, hzero⟩
  · rw [issued_center_nuztf, extract_ra_dec_nuztf]
    simp only [hdeg, hzero]
    intro hcontra
    rw [Prod.mk.injEq] at hcontra
    have h90 : rad2deg 90 = 90 := hcontra.1
    rw [rad2deg] at h90
    have hpi180 : Real.pi = 180 := by
      field_simp at h90
      linarith
    have hlt := Real.pi_lt_d2
    rw [hpi180] at hlt
    norm_num at hlt

/-- C10: a cache holding a record with no previous detections makes the
tabular summary fail (Python `max` of an empty sequence) instead of
producing a row, and any record that does render into a row has at least one
previous detection. -/
theorem parse_candidates_requires_prv :
    parse_candidates [("ZTF21new", noPrvRec)] = none ∧
    ∀ (cache : List (String × AlertRecord)) (rows : List (String × Detection)),
      parse_candidates cache = some rows →
      ∀ p ∈ cache, p.2.prv_candidates ≠ [] := by
  constructor
  · rfl
  · intro cache rows h p hp
    exact parse_rows_some _ rows h p
      ((List.perm_insertionSort _ cache).mem_iff.mpr hp)

/-- Witness for C10: a cache whose single record has one previous detection
renders into a row, and that record indeed has a nonempty history. -/
theorem parse_candidates_requires_prv_witness :
    parse_candidates [("ZTF21old", withPrvRec)] = some [("ZTF21old", selfDet)] ∧
    withPrvRec.prv_candidates ≠ [] := by
  have hparse : parse_candidates [("ZTF21old", withPrvRec)]
      = some [("ZTF21old", selfDet)] := by
    norm_num [parse_candidates, parse_rows, latest_detection, pyMax, pyIndexOf,
      withPrvRec, selfDet, selfPrv, List.insertionSort, List.orderedInsert]
  exact ⟨hparse, parse_candidates_requires_prv.2 [("ZTF21old", withPrvRec)]
    [("ZTF21old", selfDet)] hparse ("ZTF21old", withPrvRec) (by simp)⟩

end ZTF
